import Mathlib

set_option linter.unusedVariables false
set_option linter.unusedSectionVars false

/-!
# TMVA regression example programs: scoring loop, trainer and command line

A shallow embedding of `TMVARegressionApplication.C` and `TMVARegressionCalo.C`.

* The programs do two things with a `Float_t`: they copy it and they take
  `TMath::Abs` of it; neither rounds. The value type `F` is therefore any
  type with an operation `TMath.Abs`. Two value types are used: exact
  numbers (a linearly ordered ring with its absolute value) and `Float_t`,
  which adds the infinities and NaN of IEEE 754.
* ROOT objects are read through the calls the programs make on them: every
  call with an effect outside the program appends an event to a trace.
* A read outside the bounds of a `std::vector` has no defined value; it is
  recorded as `none`. What the output file then holds in such a cell is
  what the memory behind the vector holds (`storedRow`), which the program
  does not determine.
-/

namespace TMVA

/-! ## Data model -/

/-- One entry of the input tree `theNtuple`: the six branches that
`SetBranchAddress` binds. The block of local variables
`Float_t GenPt, Eta, dPhi12, dEta12, clct1, clct2` has the same shape. -/
structure Entry (F : Type) where
  GenPt : F
  Eta : F
  dPhi12 : F
  dEta12 : F
  clct1 : F
  clct2 : F
deriving DecidableEq

/-- The operation `TMath::Abs` on the value type `F`. -/
class TMath (F : Type) where
  Abs : F → F

/-- Exact numbers: `TMath::Abs` is the absolute value. -/
instance {F : Type} [LinearOrderedRing F] : TMath F where
  Abs := fun x => |x|

/-- The values of a `Float_t`: NaN, the two infinities (`negative` is the
sign bit) and the finite values; the finite values are read as rational
numbers, the two zeros as one. -/
inductive Float_t where
  | nan
  | inf (negative : Bool)
  | fin (q : ℚ)
deriving DecidableEq

/-- The function `TMath::Abs(Float_t d)`: NaN stays NaN, an infinity becomes
the positive one, a finite value its absolute value. -/
def Float_t.Abs : Float_t → Float_t
  | Float_t.nan => Float_t.nan
  | Float_t.inf _ => Float_t.inf false
  | Float_t.fin q => Float_t.fin |q|

/-- The comparison `d >= 0` on `Float_t`: false on NaN. -/
def Float_t.ge0 : Float_t → Bool
  | Float_t.nan => false
  | Float_t.inf negative => !negative
  | Float_t.fin q => decide (0 ≤ q)

instance : TMath Float_t where
  Abs := Float_t.Abs

/-- A row stored in a `TNtuple`: one cell per declared column; `none` is a
cell read from outside the buffer given to `Fill`. -/
abbrev Row (F : Type) := List (Option F)

/-- A booked regression method: maps the values of the declared variables
(in `AddVariable` order) to the vector of regression targets, which holds
at least one target. -/
abbrev Regression (F : Type) := List F → {v : List F // v ≠ []}

/-- The environment of the scoring program. -/
structure World (F : Type) where
  /-- The result of `gSystem->AccessPathName(fname)`: `false` when the path
  CAN be accessed. -/
  AccessPathName : String → Bool
  /-- The result of `TFile::Open(fname)` followed by `Get("theNtuple")`:
  `none` is the null pointer, `some t` a file whose tree holds entries `t`. -/
  Open : String → Option (List (Entry F))
  /-- The regression function stored in a weight file. -/
  weights : String → Regression F
  /-- The contents of the local variables before the first `GetEntry`. -/
  uninit : Entry F

/-- The effects of the scoring program, in program order. -/
inductive Event (F : Type) where
  | cout (s : String)
  | BookMVA (methodName weightfile : String)
  | OpenInput (fname : String)
  | Recreate (fname : String)
  | NewNtuple (name title varlist : String)
  | Fill (row : Row F)
  | Write
  | Close
deriving DecidableEq

/-- What a run leaves behind: the trace of its effects and the code passed
to `exit`, if it was called. -/
structure Outcome (F : Type) where
  trace : List (Event F)
  exit : Option Nat
deriving DecidableEq

/-! ## TNtuple -/

/-- Split a list of characters at every `:`. -/
def splitColon : List Char → List (List Char)
  | [] => [[]]
  | c :: cs =>
    match splitColon cs with
    | [] => [[c]]
    | w :: ws => if c = ':' then [] :: w :: ws else (c :: w) :: ws

/-- The column names the `TNtuple` constructor declares from `varlist`:
none for the empty string; otherwise the first name starts at the first
character and a new one starts after every later `:`. -/
def columns (varlist : String) : List String :=
  match varlist.data with
  | [] => []
  | c :: cs =>
    match splitColon cs with
    | [] => [String.mk [c]]
    | w :: ws => (String.mk (c :: w)) :: ws.map String.mk

/-- The number of columns of a `TNtuple` built from `varlist` (fNvar). -/
def nvar (varlist : String) : Nat := (columns varlist).length

/-- The row `TNtuple::Fill(const Float_t* x)` stores when `x` points at the
first element of `y`: it reads `x[0] .. x[fNvar-1]`. -/
def fillRow {F : Type} (varlist : String) (y : List F) : Row F :=
  (List.range (nvar varlist)).map (fun i => y[i]?)

/-- The cell of `row` under the column called `name`, for a table declared
with `varlist`; `none` when the row holds no defined value there. -/
def cell {F : Type} (varlist name : String) (row : Row F) : Option F :=
  (row[(columns varlist).indexOf name]?).join

/-- The call `TString::IsNull()`: the string has length zero. -/
def IsNull (s : String) : Bool := s.length == 0

/-- The loop `for (int i=1; i<argc; i++)` of `main`, over the arguments
still to be read; `methodList` is the string built so far. -/
def selectMethods : List String → String → String
  | [], methodList => methodList
  | regMethod :: rest, methodList =>
    if regMethod == "-b" || regMethod == "--batch" then
      selectMethods rest methodList
    else
      let methodList := if !(IsNull methodList) then methodList ++ "," else methodList
      selectMethods rest (methodList ++ regMethod)

/-- The method list `main` passes on, for the command line `argv`
(`argv[0]` is the program name). -/
def methodList (argv : List String) : String :=
  selectMethods argv.tail ""

/-- The exit status of the process: the code given to `exit`, else the
`return 0` of `main`. -/
def exitStatus {F : Type} (o : Outcome F) : Nat := o.exit.getD 0

/-! ## TMVARegressionApplication -/

namespace Application

/-- The weight file of the booked method: `dir + prefix + "_" + "BDTG" + ".weights.xml"`. -/
def weightfile : String :=
  let dir := "dataset/weights/"
  let pre := "TMVARegression"
  dir ++ pre ++ "_" ++ "BDTG" ++ ".weights.xml"

/-- The path of the input data file. -/
def fname : String :=
  "/afs/cern.ch/user/a/acarnes/public/iml/ptrootfiles/inc/Output_Trimmed_97p5_TEST_Mode3_100k.root"

/-- The column declaration of the output ntuple. -/
def ntupleVars : String := "GenPt:BDTPt:Eta:dPhi12:dEta12:clct1:clct2"

/-- The name of the output file. -/
def outfileName : String := "test_results_TMVA_ad_finalish.root"

section
variable {F : Type} [TMath F]

/-- The call `theTree->GetEntry(ievt)`: loads the six bound variables from
entry `ievt`; leaves them as they are when the tree has no such entry. -/
def GetEntry (theTree : List (Entry F)) (ievt : Nat) (vars : Entry F) : Entry F :=
  (theTree[ievt]?).getD vars

/-- The call `reader->EvaluateRegression( "BDTG method" )`: the booked method
on the current values of the variables given to `AddVariable`, in the order
`Eta, dPhi12, dEta12, clct1, clct2`. -/
def EvaluateRegression (mva : Regression F) (vars : Entry F) : {v : List F // v ≠ []} :=
  mva [vars.Eta, vars.dPhi12, vars.dEta12, vars.clct1, vars.clct2]

/-- The value `Float_t val = (reader->EvaluateRegression( "BDTG method" ))[0]`. -/
def val (mva : Regression F) (vars : Entry F) : F :=
  (EvaluateRegression mva vars).val.head (EvaluateRegression mva vars).property

/-- The vector `y` that the body of the event loop builds by `push_back`. -/
def buildY (mva : Regression F) (vars : Entry F) : List F :=
  let val := val mva vars
  let y : List F := []
  let y := y ++ [TMath.Abs vars.GenPt]
  let y := y ++ [TMath.Abs val]
  let y := y ++ [vars.dPhi12]
  let y := y ++ [vars.dEta12]
  let y := y ++ [vars.clct1]
  let y := y ++ [vars.clct2]
  y

/-- The event loop `for (ievt=0; ievt<theTree->GetEntries(); ievt++)`, from
counter `ievt` on; `trace` holds the effects so far. -/
def eventLoop (mva : Regression F) (theTree : List (Entry F))
    (ievt : Nat) (vars : Entry F) (trace : List (Event F)) : Entry F × List (Event F) :=
  if ievt < theTree.length then
    let vars := GetEntry theTree ievt vars
    let y := buildY mva vars
    eventLoop mva theTree (ievt + 1) vars (trace ++ [Event.Fill (fillRow ntupleVars y)])
  else
    (vars, trace)
termination_by theTree.length - ievt

/-- The function `TMVARegressionApplication( TString myMethodList )`. The
time that `sw.Print()` writes is not represented. -/
def TMVARegressionApplication (myMethodList : String) (w : World F) : Outcome F :=
  let t : List (Event F) := [Event.cout "\n", Event.cout "==> Start TMVARegressionApplication\n"]
  let methodName := "BDTG method"
  let t := t ++ [Event.BookMVA methodName weightfile]
  let mva := w.weights weightfile
  let input := if !(w.AccessPathName fname) then w.Open fname else none
  match input with
  | none =>
    { trace := t ++ [Event.cout "ERROR: could not open data file\n"], exit := some 1 }
  | some theTree =>
    let t := t ++ [Event.OpenInput fname,
      Event.cout ("--- TMVARegressionApp        : Using input file: " ++ fname ++ "\n"),
      Event.cout "--- Select signal sample\n"]
    let t := t ++ [Event.Recreate outfileName,
      Event.NewNtuple "BDTresults" "BDTresults" ntupleVars,
      Event.cout ("--- Processing: " ++ toString theTree.length ++ " events\n")]
    let t := (eventLoop mva theTree 0 w.uninit t).2
    let t := t ++ [Event.cout "--- End of event loop: "]
    let t := t ++ [Event.Write, Event.Close,
      Event.cout "==> TMVARegressionApplication is done!\n\n"]
    { trace := t, exit := none }

/-- The program: `main` of `TMVARegressionApplication.C`. -/
def main (argv : List String) (w : World F) : Outcome F :=
  TMVARegressionApplication (methodList argv) w

end

/-- The rows the trace stores in the ntuple, in the order of the `Fill` calls. -/
def BDTresults {F : Type} (trace : List (Event F)) : List (Row F) :=
  trace.filterMap (fun e => match e with
    | Event.Fill row => some row
    | _ => none)

/-- The files the trace creates or overwrites (`RECREATE`). -/
def recreated {F : Type} (trace : List (Event F)) : List String :=
  trace.filterMap (fun e => match e with
    | Event.Recreate f => some f
    | _ => none)

/-- The weight files the trace books. -/
def booked {F : Type} (trace : List (Event F)) : List String :=
  trace.filterMap (fun e => match e with
    | Event.BookMVA _ f => some f
    | _ => none)

/-- The trace without what is written to `std::cout`. -/
def effects {F : Type} (trace : List (Event F)) : List (Event F) :=
  trace.filter (fun e => match e with
    | Event.cout _ => false
    | _ => true)

end Application

/-! ## TMVARegressionCalo -/

namespace Calo

/-- The environment of the trainer. -/
structure World where
  /-- The result of `gSystem->AccessPathName(fname)`: `false` when the path
  CAN be accessed. -/
  AccessPathName : String → Bool
  /-- Whether `TFile::Open(fname)` returns a file (not the null pointer). -/
  Open : String → Bool

/-- The effects of the trainer, in program order. -/
inductive Event where
  | cout (s : String)
  | Recreate (fname : String)
  | NewFactory (jobName options : String)
  | AddVariable (expression title unit : String) (type : Char)
  | AddTarget (expression : String)
  | OpenInput (fname : String)
  | AddRegressionTree (tree : String)
  | PrepareTrainingAndTestTree (cut options : String)
  | BookMethod (theMethod methodTitle options : String)
  | TrainAllMethods
  | TestAllMethods
  | EvaluateAllMethods
  | Close
deriving DecidableEq

/-- What a run of the trainer leaves behind. -/
structure Outcome where
  trace : List Event
  exit : Option Nat
deriving DecidableEq

/-- The name of the output file. -/
def outfileName : String := "TMVACaloReg.root"

/-- The path of the training data file. -/
def fname : String := "../ptrootfiles/testDataReg.root"

/-- The input variables declared to the factory, in order. -/
def inputVariables : List String :=
  ["e0", "e1", "e2", "e3", "e4", "e5", "e6", "e7", "e8", "e9", "e10", "e11", "e12",
   "eta", "phi", "eta0", "phi0", "esum"]

/-- The function `TMVARegressionCalo( TString myMethodList )`. -/
def TMVARegressionCalo (myMethodList : String) (w : World) : Outcome :=
  let t : List Event := [Event.Recreate outfileName]
  let t := t ++ [Event.NewFactory "TMVARegression" "!V:!Silent:Color:DrawProgressBar"]
  let t := t ++ inputVariables.map (fun v => Event.AddVariable v v "" 'F')
  let t := t ++ [Event.AddTarget "etruth"]
  let input := if !(w.AccessPathName fname) then w.Open fname else false
  if !input then
    { trace := t ++ [Event.cout "ERROR: could not open data file\n"], exit := some 1 }
  else
    let t := t ++ [Event.OpenInput fname,
      Event.cout ("--- TMVARegression           : Using input file: " ++ fname ++ "\n")]
    let t := t ++ [Event.AddRegressionTree "TreeR"]
    let mycut := ""
    let t := t ++ [Event.PrepareTrainingAndTestTree mycut
      "nTrain_Regression=25000:nTest_Regression=25000:SplitMode=Random:NormMode=NumEvents:!V"]
    let t := t ++ [Event.BookMethod "kBDT" "BDTG"
      "!H:!V:NTrees=64::BoostType=Grad:Shrinkage=0.3:nCuts=99999:MaxDepth=4:MinNodeSize=0.001:NegWeightTreatment=IgnoreNegWeightsInTraining"]
    let t := t ++ [Event.TrainAllMethods]
    let t := t ++ [Event.TestAllMethods]
    let t := t ++ [Event.EvaluateAllMethods]
    let t := t ++ [Event.Close]
    let t := t ++ [Event.cout ("==> Wrote root file: " ++ outfileName ++ "\n"),
      Event.cout "==> TMVARegression is done!\n"]
    { trace := t, exit := none }

/-- The program: `main` of `TMVARegressionCalo.C`. -/
def main (argv : List String) (w : World) : Outcome :=
  TMVARegressionCalo (methodList argv) w

/-- The titles of the methods the trace books, in booking order. -/
def bookedMethods (trace : List Event) : List String :=
  trace.filterMap (fun e => match e with
    | Event.BookMethod _ title _ => some title
    | _ => none)

/-- The files the trace creates or overwrites (`RECREATE`). -/
def recreated (trace : List Event) : List String :=
  trace.filterMap (fun e => match e with
    | Event.Recreate f => some f
    | _ => none)

end Calo

/-! ## The claims as the specification words them -/

/-- The arguments that are not exactly `-b` or `--batch`, in order. -/
def keptArgs (args : List String) : List String :=
  args.filter (fun a => !(a == "-b" || a == "--batch"))

/-- The method list as the specification words it: the arguments that are
not exactly `-b` or `--batch`, in order, joined with `,`. -/
def specMethodList (args : List String) : String :=
  ",".intercalate (keptArgs args)

/-- The output row as the specification words it:
`(abs GenPt, abs prediction, Eta, dPhi12, dEta12, clct1, clct2)`. -/
def specRow {F : Type} [TMath F] (mva : Regression F) (e : Entry F) : Row F :=
  [some (TMath.Abs e.GenPt), some (TMath.Abs (Application.val mva e)),
   some e.Eta, some e.dPhi12, some e.dEta12, some e.clct1, some e.clct2]

/-! ## Concrete inputs -/

/-- The input row of the specification's scenario:
`{Eta=1.2, dPhi12=0.3, dEta12=0.1, clct1=4, clct2=5, GenPt=-50.0}`. -/
def scenarioEntry : Entry ℚ :=
  { GenPt := -50, Eta := 6/5, dPhi12 := 3/10, dEta12 := 1/10, clct1 := 4, clct2 := 5 }

/-- A second input row. -/
def secondEntry : Entry ℚ :=
  { GenPt := 7, Eta := -1, dPhi12 := 2, dEta12 := 3, clct1 := 1, clct2 := 2 }

/-- The model of the scenario: it returns `[-42.5]`. -/
def scenarioModel : Regression ℚ := fun _ => ⟨[-85/2], List.cons_ne_nil _ _⟩

/-- A world whose input file holds the scenario's row only. -/
def scenarioWorld : World ℚ :=
  { AccessPathName := fun _ => false
    Open := fun _ => some [scenarioEntry]
    weights := fun _ => scenarioModel
    uninit := ⟨0, 0, 0, 0, 0, 0⟩ }

/-- A world whose input file holds two rows. -/
def twoRowWorld : World ℚ :=
  { AccessPathName := fun _ => false
    Open := fun _ => some [scenarioEntry, secondEntry]
    weights := fun _ => scenarioModel
    uninit := ⟨0, 0, 0, 0, 0, 0⟩ }

/-- A world with an empty input tree. -/
def emptyTreeWorld : World ℚ :=
  { AccessPathName := fun _ => false
    Open := fun _ => some []
    weights := fun _ => scenarioModel
    uninit := ⟨0, 0, 0, 0, 0, 0⟩ }

/-- A world whose input file cannot be accessed. -/
def missingWorld : World ℚ :=
  { AccessPathName := fun _ => true
    Open := fun _ => none
    weights := fun _ => scenarioModel
    uninit := ⟨0, 0, 0, 0, 0, 0⟩ }

/-- An input row whose `GenPt` is NaN. -/
def nanEntry : Entry Float_t :=
  { GenPt := Float_t.nan, Eta := Float_t.fin (6/5), dPhi12 := Float_t.fin (3/10),
    dEta12 := Float_t.fin (1/10), clct1 := Float_t.fin 4, clct2 := Float_t.fin 5 }

/-- The scenario's input row, as `Float_t` values. -/
def finiteEntry : Entry Float_t :=
  { GenPt := Float_t.fin (-50), Eta := Float_t.fin (6/5), dPhi12 := Float_t.fin (3/10),
    dEta12 := Float_t.fin (1/10), clct1 := Float_t.fin 4, clct2 := Float_t.fin 5 }

/-- A model on `Float_t`: NaN when `Eta` is NaN or infinite, else `-42.5 * Eta`. -/
def floatModel : Regression Float_t := fun x =>
  match x.head? with
  | some (Float_t.fin q) => ⟨[Float_t.fin (-85/2 * q)], List.cons_ne_nil _ _⟩
  | _ => ⟨[Float_t.nan], List.cons_ne_nil _ _⟩

/-- A model on `Float_t` whose result is NaN. -/
def nanModel : Regression Float_t := fun _ => ⟨[Float_t.nan], List.cons_ne_nil _ _⟩

/-- A world whose input file holds one row with a NaN `GenPt`, and whose
model returns NaN. -/
def nanWorld : World Float_t :=
  { AccessPathName := fun _ => false
    Open := fun _ => some [nanEntry]
    weights := fun _ => nanModel
    uninit := ⟨Float_t.fin 0, Float_t.fin 0, Float_t.fin 0, Float_t.fin 0, Float_t.fin 0,
      Float_t.fin 0⟩ }

/-- A world of `Float_t` values whose input file holds two rows. -/
def floatWorld : World Float_t :=
  { AccessPathName := fun _ => false
    Open := fun _ => some [nanEntry, finiteEntry]
    weights := fun _ => floatModel
    uninit := ⟨Float_t.fin 0, Float_t.fin 0, Float_t.fin 0, Float_t.fin 0, Float_t.fin 0,
      Float_t.fin 0⟩ }

/-- A trainer world whose training file cannot be accessed. -/
def Calo.missingWorld : Calo.World :=
  { AccessPathName := fun _ => true, Open := fun _ => false }

/-- A trainer world whose training file opens. -/
def Calo.openWorld : Calo.World :=
  { AccessPathName := fun _ => false, Open := fun _ => true }

end TMVA


/-! ## Lemmas -/

namespace TMVA

/-- The absolute value of a `Float_t` that is not NaN is non-negative. -/
theorem Float_t.ge0_Abs (x : Float_t) (h : x ≠ Float_t.nan) : (Float_t.Abs x).ge0 = true := by
  cases x with
  | nan => exact absurd rfl h
  | inf negative => rfl
  | fin q => simp [Float_t.Abs, Float_t.ge0]

/-- The absolute value of NaN is NaN. -/
theorem Float_t.Abs_nan (x : Float_t) (h : x = Float_t.nan) : Float_t.Abs x = Float_t.nan := by
  rw [h]
  rfl

namespace Application

theorem BDTresults_append {F : Type} (t u : List (Event F)) :
    BDTresults (t ++ u) = BDTresults t ++ BDTresults u := by
  simp [BDTresults, List.filterMap_append]

theorem BDTresults_fills {F : Type} (f : Entry F → Row F) (l : List (Entry F)) :
    BDTresults (l.map (fun e => Event.Fill (f e))) = l.map f := by
  induction l with
  | nil => rfl
  | cons a l ih => simpa [BDTresults] using ih

theorem effects_append {F : Type} (t u : List (Event F)) :
    effects (t ++ u) = effects t ++ effects u := by
  simp [effects, List.filter_append]

theorem effects_fills {F : Type} (f : Entry F → Row F) (l : List (Entry F)) :
    effects (l.map (fun e => Event.Fill (f e))) = l.map (fun e => Event.Fill (f e)) := by
  induction l with
  | nil => rfl
  | cons a l ih => simp [effects]

section
variable {F : Type} [TMath F]

theorem eventLoop_trace_aux (mva : Regression F) (theTree : List (Entry F)) :
    ∀ (k ievt : Nat) (vars : Entry F) (t : List (Event F)), theTree.length - ievt = k →
      (eventLoop mva theTree ievt vars t).2 =
        t ++ (theTree.drop ievt).map (fun e => Event.Fill (fillRow ntupleVars (buildY mva e))) := by
  intro k
  induction k with
  | zero =>
    intro ievt vars t hk
    have hle : theTree.length ≤ ievt := by omega
    rw [eventLoop, if_neg (by omega)]
    simp [List.drop_eq_nil_of_le hle]
  | succ k ih =>
    intro ievt vars t hk
    have hlt : ievt < theTree.length := by omega
    rw [eventLoop, if_pos hlt]
    simp only []
    rw [ih (ievt + 1) _ _ (by omega)]
    have hget : GetEntry theTree ievt vars = theTree[ievt] := by
      simp [GetEntry, List.getElem?_eq_getElem hlt]
    rw [hget, List.drop_eq_getElem_cons hlt]
    simp only [List.map_cons, List.append_assoc, List.singleton_append]

/-- The event loop run from counter zero appends one `Fill` per entry of
the tree, in the order of the entries. -/
theorem eventLoop_trace (mva : Regression F) (theTree : List (Entry F)) (vars : Entry F)
    (t : List (Event F)) :
    (eventLoop mva theTree 0 vars t).2 =
      t ++ theTree.map (fun e => Event.Fill (fillRow ntupleVars (buildY mva e))) := by
  simpa using eventLoop_trace_aux mva theTree theTree.length 0 vars t rfl

/-- The trace of a run whose input file opens. -/
theorem trace_of_open (myMethodList : String) (w : World F) (theTree : List (Entry F))
    (hA : w.AccessPathName fname = false) (hO : w.Open fname = some theTree) :
    TMVARegressionApplication myMethodList w =
      { trace := [Event.cout "\n", Event.cout "==> Start TMVARegressionApplication\n",
            Event.BookMVA "BDTG method" weightfile, Event.OpenInput fname,
            Event.cout ("--- TMVARegressionApp        : Using input file: " ++ fname ++ "\n"),
            Event.cout "--- Select signal sample\n",
            Event.Recreate outfileName,
            Event.NewNtuple "BDTresults" "BDTresults" ntupleVars,
            Event.cout ("--- Processing: " ++ toString theTree.length ++ " events\n")]
          ++ theTree.map (fun e => Event.Fill (fillRow ntupleVars (buildY (w.weights weightfile) e)))
          ++ [Event.cout "--- End of event loop: ", Event.Write, Event.Close,
            Event.cout "==> TMVARegressionApplication is done!\n\n"],
        exit := none } := by
  simp [TMVARegressionApplication, hA, hO, eventLoop_trace]

/-- The trace of a run whose input file does not open. -/
theorem trace_of_missing (myMethodList : String) (w : World F)
    (h : w.AccessPathName fname = true ∨ w.Open fname = none) :
    TMVARegressionApplication myMethodList w =
      { trace := [Event.cout "\n", Event.cout "==> Start TMVARegressionApplication\n",
            Event.BookMVA "BDTG method" weightfile,
            Event.cout "ERROR: could not open data file\n"],
        exit := some 1 } := by
  rcases h with h | h
  · simp [TMVARegressionApplication, h]
  · cases hA : w.AccessPathName fname <;> simp [TMVARegressionApplication, h, hA]

/-- The table of a run whose input file opens: one row per entry, in order. -/
theorem BDTresults_of_open (myMethodList : String) (w : World F) (theTree : List (Entry F))
    (hA : w.AccessPathName fname = false) (hO : w.Open fname = some theTree) :
    BDTresults (TMVARegressionApplication myMethodList w).trace =
      theTree.map (fun e => fillRow ntupleVars (buildY (w.weights weightfile) e)) := by
  rw [trace_of_open myMethodList w theTree hA hO]
  simp only [BDTresults_append, BDTresults_fills]
  simp [BDTresults]

theorem weightfile_eq : weightfile = "dataset/weights/TMVARegression_BDTG.weights.xml" := by
  decide

theorem columns_ntupleVars :
    columns ntupleVars = ["GenPt", "BDTPt", "Eta", "dPhi12", "dEta12", "clct1", "clct2"] := by
  decide

theorem nvar_ntupleVars : nvar ntupleVars = 7 := by decide

/-- The i-th row of the table is the one built from the i-th entry. -/
theorem row_count_invariant_aux (myMethodList : String) (w : World F) (theTree : List (Entry F))
    (hA : w.AccessPathName fname = false) (hO : w.Open fname = some theTree) :
    ∀ (i : Nat) (h : i < theTree.length),
      (BDTresults (TMVARegressionApplication myMethodList w).trace)[i]? =
        some (fillRow ntupleVars (buildY (w.weights weightfile) theTree[i])) := by
  intro i h
  rw [BDTresults_of_open myMethodList w theTree hA hO]
  simp [List.getElem?_eq_getElem, h]

/-- The row one pass of the loop body stores, cell by cell. -/
theorem fillRow_buildY (mva : Regression F) (e : Entry F) :
    fillRow ntupleVars (buildY mva e) =
      [some (TMath.Abs e.GenPt),
       some (TMath.Abs (val mva e)),
       some e.dPhi12, some e.dEta12, some e.clct1, some e.clct2, none] := by
  simp [fillRow, nvar_ntupleVars, buildY, List.range_succ]

/-- The value `val` is element 0 of the regression result. -/
theorem val_spec (mva : Regression F) (e : Entry F) :
    ∃ rest : List F,
      (mva [e.Eta, e.dPhi12, e.dEta12, e.clct1, e.clct2]).val = val mva e :: rest := by
  have key : ∀ r : {v : List F // v ≠ []}, ∃ rest : List F, r.val = r.val.head r.property :: rest := by
    rintro ⟨l, hl⟩
    cases l with
    | nil => exact absurd rfl hl
    | cons a l => exact ⟨l, rfl⟩
  exact key (mva [e.Eta, e.dPhi12, e.dEta12, e.clct1, e.clct2])

end

end Application

end TMVA

/-! ## The scoring program -/

namespace TMVA

open Application

/-- C1: for every model and every input tree of N entries (N = 0 included)
that the program opens, the ntuple `BDTresults` receives exactly N rows, and
for every `i < N` the i-th row is the one the loop body builds from the
i-th entry. -/
theorem row_count_invariant {F : Type} [TMath F] (myMethodList : String)
    (w : World F) (theTree : List (Entry F))
    (hA : w.AccessPathName fname = false) (hO : w.Open fname = some theTree) :
    (BDTresults (TMVARegressionApplication myMethodList w).trace).length = theTree.length ∧
    ∀ (i : Nat) (h : i < theTree.length),
      (BDTresults (TMVARegressionApplication myMethodList w).trace)[i]? =
        some (fillRow ntupleVars (buildY (w.weights weightfile) theTree[i])) := by
  rw [BDTresults_of_open myMethodList w theTree hA hO]
  refine ⟨by simp, fun i h => ?_⟩
  simp [List.getElem?_eq_getElem, h]

/-- C1, on a tree of two entries. -/
theorem row_count_invariant_witness :
    twoRowWorld.AccessPathName fname = false ∧
    twoRowWorld.Open fname = some [scenarioEntry, secondEntry] ∧
    (BDTresults (TMVARegressionApplication "" twoRowWorld).trace).length = 2 ∧
    ∀ (i : Nat) (h : i < [scenarioEntry, secondEntry].length),
      (BDTresults (TMVARegressionApplication "" twoRowWorld).trace)[i]? =
        some (fillRow ntupleVars
          (buildY (twoRowWorld.weights weightfile) [scenarioEntry, secondEntry][i])) :=
  ⟨rfl, rfl, row_count_invariant "" twoRowWorld [scenarioEntry, secondEntry] rfl rfl⟩

/-- C3 as stated fails: on an input row whose `GenPt` is NaN, with a model
whose result is NaN, the cells stored under `GenPt` and `BDTPt` are NaN, and
NaN is not non-negative. -/
theorem normalization_nan_stored :
    nanWorld.AccessPathName fname = false ∧ nanWorld.Open fname = some [nanEntry] ∧
    (BDTresults (TMVARegressionApplication "" nanWorld).trace).map (cell ntupleVars "GenPt") =
      [some Float_t.nan] ∧
    (BDTresults (TMVARegressionApplication "" nanWorld).trace).map (cell ntupleVars "BDTPt") =
      [some Float_t.nan] ∧
    Float_t.ge0 Float_t.nan = false ∧
    ¬ ∀ row ∈ BDTresults (TMVARegressionApplication "" nanWorld).trace,
        ∃ g b : Float_t, cell ntupleVars "GenPt" row = some g ∧
          cell ntupleVars "BDTPt" row = some b ∧ g.ge0 = true ∧ b.ge0 = true := by
  have hrow : BDTresults (TMVARegressionApplication "" nanWorld).trace =
      [[some Float_t.nan, some Float_t.nan, some (Float_t.fin (3/10)),
        some (Float_t.fin (1/10)), some (Float_t.fin 4), some (Float_t.fin 5), none]] := by
    rw [BDTresults_of_open "" nanWorld [nanEntry] rfl rfl]
    simp [fillRow_buildY, val, EvaluateRegression, nanWorld, nanModel, nanEntry, TMath.Abs,
      Float_t.Abs]
  rw [hrow]
  refine ⟨rfl, rfl, ?_, ?_, rfl, ?_⟩
  · simp [cell, columns_ntupleVars]
  · simp [cell, columns_ntupleVars]
  · simp [cell, columns_ntupleVars, Float_t.ge0]

/-- C3 as amended: for every model and every entry of the input tree, the row
stored for that entry holds `TMath::Abs` of the entry's `GenPt` under `GenPt`
and, under `BDTPt`, `TMath::Abs` of element 0 of the regression result of the
booked weight file on the entry's `Eta, dPhi12, dEta12, clct1, clct2`; each of
the two cells is non-negative when the value it is taken from is not NaN, and
is NaN when that value is NaN. -/
theorem normalization_invariant (myMethodList : String)
    (w : World Float_t) (theTree : List (Entry Float_t))
    (hA : w.AccessPathName fname = false) (hO : w.Open fname = some theTree)
    (i : Nat) (h : i < theTree.length) :
    ∃ (row : Row Float_t) (g b r0 : Float_t) (rest : List Float_t),
      (BDTresults (TMVARegressionApplication myMethodList w).trace)[i]? = some row ∧
      (w.weights "dataset/weights/TMVARegression_BDTG.weights.xml"
        [theTree[i].Eta, theTree[i].dPhi12, theTree[i].dEta12, theTree[i].clct1,
          theTree[i].clct2]).val = r0 :: rest ∧
      cell ntupleVars "GenPt" row = some g ∧ cell ntupleVars "BDTPt" row = some b ∧
      g = Float_t.Abs theTree[i].GenPt ∧ b = Float_t.Abs r0 ∧
      (theTree[i].GenPt ≠ Float_t.nan → g.ge0 = true) ∧ (r0 ≠ Float_t.nan → b.ge0 = true) ∧
      (theTree[i].GenPt = Float_t.nan → g = Float_t.nan) ∧
      (r0 = Float_t.nan → b = Float_t.nan) := by
  obtain ⟨rest, hrest⟩ := val_spec (w.weights weightfile) theTree[i]
  refine ⟨fillRow ntupleVars (buildY (w.weights weightfile) theTree[i]),
    Float_t.Abs theTree[i].GenPt, Float_t.Abs (val (w.weights weightfile) theTree[i]),
    val (w.weights weightfile) theTree[i], rest,
    (row_count_invariant_aux myMethodList w theTree hA hO) i h, ?_, ?_, ?_, rfl, rfl,
    Float_t.ge0_Abs _, Float_t.ge0_Abs _, Float_t.Abs_nan _, Float_t.Abs_nan _⟩
  · rw [← weightfile_eq]; exact hrest
  · simp [fillRow_buildY, cell, columns_ntupleVars, TMath.Abs]
  · simp [fillRow_buildY, cell, columns_ntupleVars, TMath.Abs]

/-- C3 as amended, on the second entry (finite values) of a tree of two
entries. -/
theorem normalization_invariant_witness :
    floatWorld.AccessPathName fname = false ∧
    floatWorld.Open fname = some [nanEntry, finiteEntry] ∧
    ∃ (row : Row Float_t) (g b r0 : Float_t) (rest : List Float_t),
      (BDTresults (TMVARegressionApplication "" floatWorld).trace)[1]? = some row ∧
      (floatWorld.weights "dataset/weights/TMVARegression_BDTG.weights.xml"
        [[nanEntry, finiteEntry][1].Eta, [nanEntry, finiteEntry][1].dPhi12,
          [nanEntry, finiteEntry][1].dEta12, [nanEntry, finiteEntry][1].clct1,
          [nanEntry, finiteEntry][1].clct2]).val = r0 :: rest ∧
      cell ntupleVars "GenPt" row = some g ∧ cell ntupleVars "BDTPt" row = some b ∧
      g = Float_t.Abs [nanEntry, finiteEntry][1].GenPt ∧ b = Float_t.Abs r0 ∧
      ([nanEntry, finiteEntry][1].GenPt ≠ Float_t.nan → g.ge0 = true) ∧
      (r0 ≠ Float_t.nan → b.ge0 = true) ∧
      ([nanEntry, finiteEntry][1].GenPt = Float_t.nan → g = Float_t.nan) ∧
      (r0 = Float_t.nan → b = Float_t.nan) :=
  ⟨rfl, rfl,
    normalization_invariant "" floatWorld [nanEntry, finiteEntry] rfl rfl 1 (by decide)⟩

/-- C4: when the input data file cannot be accessed or opened, the scoring
program prints the diagnostic last and calls `exit(1)`; it has filled no row
and has not created or overwritten any file, the output file included. -/
theorem fatal_path_application {F : Type} [TMath F] (myMethodList : String)
    (w : World F) (h : w.AccessPathName fname = true ∨ w.Open fname = none) :
    (TMVARegressionApplication myMethodList w).exit = some 1 ∧
    exitStatus (TMVARegressionApplication myMethodList w) = 1 ∧
    (TMVARegressionApplication myMethodList w).trace.getLast? =
      some (Event.cout "ERROR: could not open data file\n") ∧
    BDTresults (TMVARegressionApplication myMethodList w).trace = [] ∧
    recreated (TMVARegressionApplication myMethodList w).trace = [] ∧
    Event.Recreate "test_results_TMVA_ad_finalish.root" ∉
      (TMVARegressionApplication myMethodList w).trace := by
  rw [trace_of_missing myMethodList w h]
  simp [exitStatus, BDTresults, recreated]

/-- C4, on a world whose input path cannot be accessed. -/
theorem fatal_path_application_witness :
    (missingWorld.AccessPathName fname = true ∨ missingWorld.Open fname = none) ∧
    (TMVARegressionApplication "" missingWorld).exit = some 1 ∧
    exitStatus (TMVARegressionApplication "" missingWorld) = 1 ∧
    (TMVARegressionApplication "" missingWorld).trace.getLast? =
      some (Event.cout "ERROR: could not open data file\n") ∧
    BDTresults (TMVARegressionApplication "" missingWorld).trace = [] ∧
    recreated (TMVARegressionApplication "" missingWorld).trace = [] ∧
    Event.Recreate "test_results_TMVA_ad_finalish.root" ∉
      (TMVARegressionApplication "" missingWorld).trace :=
  ⟨Or.inl rfl, fatal_path_application "" missingWorld (Or.inl rfl)⟩

/-- The program never reads `myMethodList`: for every two method lists and
the same world, the two runs make the same calls, call `exit` alike and book
the same weight file. A cell read outside the buffer is the same mark in
both; what the file holds there is not part of this statement. -/
theorem myMethodList_not_read {F : Type} [TMath F] (m1 m2 : String) (w : World F) :
    TMVARegressionApplication m1 w = TMVARegressionApplication m2 w ∧
    BDTresults (TMVARegressionApplication m1 w).trace =
      BDTresults (TMVARegressionApplication m2 w).trace ∧
    exitStatus (TMVARegressionApplication m1 w) = exitStatus (TMVARegressionApplication m2 w) ∧
    booked (TMVARegressionApplication m1 w).trace =
      ["dataset/weights/TMVARegression_BDTG.weights.xml"] ∧
    booked (TMVARegressionApplication m2 w).trace =
      ["dataset/weights/TMVARegression_BDTG.weights.xml"] := by
  have hb : ∀ m : String, booked (TMVARegressionApplication m w).trace =
      ["dataset/weights/TMVARegression_BDTG.weights.xml"] := by
    intro m
    rw [← weightfile_eq]
    cases hA : w.AccessPathName fname with
    | true =>
      rw [trace_of_missing m w (Or.inl hA)]
      simp [booked]
    | false =>
      cases hO : w.Open fname with
      | none =>
        rw [trace_of_missing m w (Or.inr hO)]
        simp [booked]
      | some theTree =>
        rw [trace_of_open m w theTree hA hO]
        simp [booked, List.filterMap_append, List.filterMap_map]
  exact ⟨rfl, rfl, rfl, hb m1, hb m2⟩

/-- C9: on every run whose input file opens, the effects other than console
output are, in order: the model booking, the input opening, the creation of
the output file and of the ntuple, one `Fill` per entry of the tree in the
order of the entries, then exactly one `Write` and, last, one `Close`; the
program then returns without calling `exit`. -/
theorem write_once_ordering {F : Type} [TMath F] (myMethodList : String)
    (w : World F) (theTree : List (Entry F))
    (hA : w.AccessPathName fname = false) (hO : w.Open fname = some theTree) :
    effects (TMVARegressionApplication myMethodList w).trace =
      [Event.BookMVA "BDTG method" "dataset/weights/TMVARegression_BDTG.weights.xml",
        Event.OpenInput fname,
        Event.Recreate "test_results_TMVA_ad_finalish.root",
        Event.NewNtuple "BDTresults" "BDTresults" "GenPt:BDTPt:Eta:dPhi12:dEta12:clct1:clct2"]
      ++ theTree.map (fun e => Event.Fill (fillRow ntupleVars (buildY (w.weights weightfile) e)))
      ++ [Event.Write, Event.Close] ∧
    (TMVARegressionApplication myMethodList w).exit = none ∧
    exitStatus (TMVARegressionApplication myMethodList w) = 0 := by
  rw [trace_of_open myMethodList w theTree hA hO]
  refine ⟨?_, rfl, rfl⟩
  rw [← weightfile_eq]
  simp only [effects_append, effects_fills]
  simp [effects, outfileName, ntupleVars]

/-- C9, on a tree of two entries. -/
theorem write_once_ordering_witness :
    twoRowWorld.AccessPathName fname = false ∧
    twoRowWorld.Open fname = some [scenarioEntry, secondEntry] ∧
    effects (TMVARegressionApplication "" twoRowWorld).trace =
      [Event.BookMVA "BDTG method" "dataset/weights/TMVARegression_BDTG.weights.xml",
        Event.OpenInput fname,
        Event.Recreate "test_results_TMVA_ad_finalish.root",
        Event.NewNtuple "BDTresults" "BDTresults" "GenPt:BDTPt:Eta:dPhi12:dEta12:clct1:clct2"]
      ++ [scenarioEntry, secondEntry].map
          (fun e => Event.Fill (fillRow ntupleVars (buildY (twoRowWorld.weights weightfile) e)))
      ++ [Event.Write, Event.Close] ∧
    (TMVARegressionApplication "" twoRowWorld).exit = none ∧
    exitStatus (TMVARegressionApplication "" twoRowWorld) = 0 :=
  ⟨rfl, rfl, write_once_ordering "" twoRowWorld [scenarioEntry, secondEntry] rfl rfl⟩

/-- C2 fails on the code: on the specification's scenario (input row
`Eta=1.2, dPhi12=0.3, dEta12=0.1, clct1=4, clct2=5, GenPt=-50.0`, model result
`[-42.5]`) the stored row is `(50, 42.5, 0.3, 0.1, 4, 5, -)`: the loop body
never pushes `Eta`, so every later column holds the value of its right
neighbour and the last one is read from outside the buffer. -/
theorem passthrough_scenario_shifted :
    BDTresults (TMVARegressionApplication "" scenarioWorld).trace =
      [[some 50, some (85/2), some (3/10), some (1/10), some 4, some 5, none]] ∧
    specRow scenarioModel scenarioEntry =
      [some 50, some (85/2), some (6/5), some (3/10), some (1/10), some 4, some 5] ∧
    (BDTresults (TMVARegressionApplication "" scenarioWorld).trace).map
        (cell ntupleVars "Eta") = [some (3/10)] ∧
    (BDTresults (TMVARegressionApplication "" scenarioWorld).trace).map
        (cell ntupleVars "dPhi12") = [some (1/10)] ∧
    (BDTresults (TMVARegressionApplication "" scenarioWorld).trace).map
        (cell ntupleVars "dEta12") = [some 4] ∧
    (BDTresults (TMVARegressionApplication "" scenarioWorld).trace).map
        (cell ntupleVars "clct1") = [some 5] ∧
    (BDTresults (TMVARegressionApplication "" scenarioWorld).trace).map
        (cell ntupleVars "clct2") = [none] := by
  have hrow : BDTresults (TMVARegressionApplication "" scenarioWorld).trace =
      [[some 50, some (85/2), some (3/10), some (1/10), some 4, some 5, none]] := by
    rw [BDTresults_of_open "" scenarioWorld [scenarioEntry] rfl rfl]
    simp [fillRow_buildY, val, EvaluateRegression, scenarioWorld, scenarioModel, scenarioEntry,
      TMath.Abs]
    norm_num [abs_div]
  rw [hrow]
  refine ⟨rfl, ?_, ?_, ?_, ?_, ?_, ?_⟩
  · simp [specRow, val, EvaluateRegression, scenarioModel, scenarioEntry, TMath.Abs]
    norm_num [abs_div]
  all_goals simp [cell, columns_ntupleVars]

/-- C10 fails on the code: on the specification's scenario the vector `y`
given to `Fill` holds six values while the ntuple declares seven columns, so
the read of the seventh column is outside `y`. -/
theorem row_buffer_too_short :
    (buildY scenarioModel scenarioEntry).length = 6 ∧
    nvar ntupleVars = 7 ∧
    (columns ntupleVars).length = 7 ∧
    (buildY scenarioModel scenarioEntry)[6]? = none ∧
    (fillRow ntupleVars (buildY scenarioModel scenarioEntry))[6]? = some none := by
  refine ⟨by simp [buildY], nvar_ntupleVars, nvar_ntupleVars, by simp [buildY], ?_⟩
  rw [fillRow_buildY]
  rfl

end TMVA

/-! ## The trainer -/

namespace TMVA

namespace Calo

/-- The trace of a trainer run whose training file does not open. -/
theorem trainer_trace_of_missing (myMethodList : String) (w : World)
    (h : w.AccessPathName fname = true ∨ w.Open fname = false) :
    TMVARegressionCalo myMethodList w =
      { trace := [Event.Recreate outfileName,
            Event.NewFactory "TMVARegression" "!V:!Silent:Color:DrawProgressBar"]
          ++ inputVariables.map (fun v => Event.AddVariable v v "" 'F')
          ++ [Event.AddTarget "etruth", Event.cout "ERROR: could not open data file\n"],
        exit := some 1 } := by
  rcases h with h | h
  · simp [TMVARegressionCalo, h]
  · cases hA : w.AccessPathName fname <;> simp [TMVARegressionCalo, h, hA]

/-- The methods a trainer run books, whatever the method list. -/
theorem bookedMethods_of_open (myMethodList : String) (w : World)
    (hA : w.AccessPathName fname = false) (hO : w.Open fname = true) :
    bookedMethods (TMVARegressionCalo myMethodList w).trace = ["BDTG"] := by
  simp [TMVARegressionCalo, hA, hO, bookedMethods, List.filterMap_append, inputVariables]

end Calo

/-- C5 as stated fails: on a world whose training file cannot be accessed the
trainer calls `exit(1)`, but its trace does recreate `TMVACaloReg.root`. -/
theorem fatal_path_trainer_recreates :
    (Calo.missingWorld.AccessPathName Calo.fname = true ∨
      Calo.missingWorld.Open Calo.fname = false) ∧
    (Calo.TMVARegressionCalo "" Calo.missingWorld).exit = some 1 ∧
    Calo.recreated (Calo.TMVARegressionCalo "" Calo.missingWorld).trace = ["TMVACaloReg.root"] ∧
    ¬ (Calo.recreated (Calo.TMVARegressionCalo "" Calo.missingWorld).trace = []) := by
  decide

/-- C5 as amended: when the training file cannot be accessed or opened, the
trainer prints the diagnostic last and calls `exit(1)`; it has booked and
trained no method and has not closed the output file; the output file
`TMVACaloReg.root` has been recreated exactly once, as the first effect of
the run. -/
theorem fatal_path_trainer (myMethodList : String) (w : Calo.World)
    (h : w.AccessPathName Calo.fname = true ∨ w.Open Calo.fname = false) :
    (Calo.TMVARegressionCalo myMethodList w).exit = some 1 ∧
    (Calo.TMVARegressionCalo myMethodList w).trace.getLast? =
      some (Calo.Event.cout "ERROR: could not open data file\n") ∧
    (Calo.TMVARegressionCalo myMethodList w).trace.head? =
      some (Calo.Event.Recreate "TMVACaloReg.root") ∧
    Calo.recreated (Calo.TMVARegressionCalo myMethodList w).trace = ["TMVACaloReg.root"] ∧
    Calo.bookedMethods (Calo.TMVARegressionCalo myMethodList w).trace = [] ∧
    Calo.Event.TrainAllMethods ∉ (Calo.TMVARegressionCalo myMethodList w).trace ∧
    Calo.Event.Close ∉ (Calo.TMVARegressionCalo myMethodList w).trace := by
  rw [Calo.trainer_trace_of_missing myMethodList w h]
  decide

/-- C5 as amended, on a world whose training file cannot be accessed. -/
theorem fatal_path_trainer_witness :
    (Calo.missingWorld.AccessPathName Calo.fname = true ∨
      Calo.missingWorld.Open Calo.fname = false) ∧
    (Calo.TMVARegressionCalo "LD" Calo.missingWorld).exit = some 1 ∧
    (Calo.TMVARegressionCalo "LD" Calo.missingWorld).trace.getLast? =
      some (Calo.Event.cout "ERROR: could not open data file\n") ∧
    (Calo.TMVARegressionCalo "LD" Calo.missingWorld).trace.head? =
      some (Calo.Event.Recreate "TMVACaloReg.root") ∧
    Calo.recreated (Calo.TMVARegressionCalo "LD" Calo.missingWorld).trace = ["TMVACaloReg.root"] ∧
    Calo.bookedMethods (Calo.TMVARegressionCalo "LD" Calo.missingWorld).trace = [] ∧
    Calo.Event.TrainAllMethods ∉ (Calo.TMVARegressionCalo "LD" Calo.missingWorld).trace ∧
    Calo.Event.Close ∉ (Calo.TMVARegressionCalo "LD" Calo.missingWorld).trace :=
  ⟨Or.inl rfl, fatal_path_trainer "LD" Calo.missingWorld (Or.inl rfl)⟩

/-- C7 fails on the code: called with the method list `LD,MLP` (also through
`main`), the trainer books the single method `BDTG`, the same as with the
empty method list; neither `LD` nor `MLP` is booked. -/
theorem method_list_ignored_by_trainer :
    Calo.bookedMethods (Calo.TMVARegressionCalo "LD,MLP" Calo.openWorld).trace = ["BDTG"] ∧
    Calo.bookedMethods (Calo.main ["TMVARegressionCalo", "LD", "MLP"] Calo.openWorld).trace =
      ["BDTG"] ∧
    methodList ["TMVARegressionCalo", "LD", "MLP"] = "LD,MLP" ∧
    Calo.bookedMethods (Calo.TMVARegressionCalo "" Calo.openWorld).trace = ["BDTG"] ∧
    "LD" ∉ Calo.bookedMethods (Calo.TMVARegressionCalo "LD,MLP" Calo.openWorld).trace ∧
    "MLP" ∉ Calo.bookedMethods (Calo.TMVARegressionCalo "LD,MLP" Calo.openWorld).trace := by
  decide

end TMVA

/-! ## The command line -/

namespace TMVA

theorem IsNull_iff (s : String) : IsNull s = true ↔ s = "" := by
  cases s with
  | mk l =>
    constructor
    · intro h
      simp [IsNull, String.length] at h
      subst h
      rfl
    · intro h
      rw [h]
      rfl

theorem IsNull_append_left (s t : String) (h : IsNull s = false) : IsNull (s ++ t) = false := by
  simp only [IsNull, String.length_append, beq_eq_false_iff_ne, ne_eq] at h ⊢
  omega

/-- Once the list built so far is non-empty, the loop joins every kept
argument after a comma. -/
theorem selectMethods_of_not_null (args : List String) :
    ∀ acc : String, IsNull acc = false →
      selectMethods args acc = String.intercalate.go acc "," (keptArgs args) := by
  induction args with
  | nil => intro acc _; rfl
  | cons a rest ih =>
    intro acc hacc
    by_cases hflag : (a == "-b" || a == "--batch") = true
    · simp only [selectMethods, hflag, if_true, keptArgs, List.filter_cons, Bool.not_true,
        Bool.false_eq_true, if_false]
      exact ih acc hacc
    · have hflag2 : (a == "-b" || a == "--batch") = false := by simpa using hflag
      simp only [selectMethods, hflag2, keptArgs, List.filter_cons, Bool.not_false, if_true,
        hacc, Bool.false_eq_true, if_false, String.intercalate.go]
      exact ih _ (IsNull_append_left _ _ (IsNull_append_left _ _ hacc))

/-- From the empty list, the loop drops the leading empty kept arguments and
joins the others with commas. -/
theorem selectMethods_empty (args : List String) :
    selectMethods args "" = ",".intercalate ((keptArgs args).dropWhile (fun a => a == "")) := by
  induction args with
  | nil => rfl
  | cons a rest ih =>
    by_cases hflag : (a == "-b" || a == "--batch") = true
    · simp only [selectMethods, hflag, if_true, keptArgs, List.filter_cons, Bool.not_true,
        Bool.false_eq_true, if_false]
      exact ih
    · have hflag2 : (a == "-b" || a == "--batch") = false := by simpa using hflag
      have hnull : IsNull "" = true := rfl
      simp only [selectMethods, hflag2, keptArgs, List.filter_cons, Bool.not_false, if_true,
        hnull, Bool.not_true, Bool.false_eq_true, if_false, String.empty_append,
        List.dropWhile_cons]
      by_cases ha : a = ""
      · subst ha
        simp only [beq_self_eq_true, if_true]
        exact ih
      · have hne : (a == "") = false := by simpa using ha
        have hnn : IsNull a = false := by
          cases hn : IsNull a with
          | false => rfl
          | true => exact absurd ((IsNull_iff a).1 hn) ha
        simp only [hne, Bool.false_eq_true, if_false, String.intercalate]
        exact selectMethods_of_not_null rest a hnn

theorem dropWhile_of_not_mem (l : List String) (h : "" ∉ l) :
    l.dropWhile (fun a => a == "") = l := by
  cases l with
  | nil => rfl
  | cons a l =>
    have ha : ¬ a = "" := fun e => h (by simp [e])
    simp [List.dropWhile_cons, ha]

/-- C6 as stated fails: for the arguments `""` and `LD` the list `main`
passes on is `LD`, while the kept arguments joined with commas are `,LD`. -/
theorem method_list_drops_leading_empty :
    methodList ["TMVARegressionApplication", "", "LD"] = "LD" ∧
    specMethodList ["", "LD"] = ",LD" ∧
    methodList ["TMVARegressionApplication", "", "LD"] ≠ specMethodList ["", "LD"] := by
  decide

/-- C6 as amended: for every command line, the method list that `main` of
either program passes on is the arguments that are not exactly `-b` or
`--batch`, without the empty strings that come before the first non-empty
one, in their order, joined with one `,` between consecutive ones (the empty
string when none is left); when no kept argument is the empty string this is
the kept arguments joined with `,`. -/
theorem method_list_amended (argv : List String) :
    methodList argv =
      ",".intercalate ((keptArgs argv.tail).dropWhile (fun a => a == "")) ∧
    (∀ {F : Type} [TMath F] (w : World F), Application.main argv w =
      Application.TMVARegressionApplication
        (",".intercalate ((keptArgs argv.tail).dropWhile (fun a => a == ""))) w) ∧
    (∀ w : Calo.World, Calo.main argv w =
      Calo.TMVARegressionCalo
        (",".intercalate ((keptArgs argv.tail).dropWhile (fun a => a == ""))) w) ∧
    ("" ∉ keptArgs argv.tail → methodList argv = specMethodList argv.tail) := by
  have h : methodList argv =
      ",".intercalate ((keptArgs argv.tail).dropWhile (fun a => a == "")) :=
    selectMethods_empty argv.tail
  refine ⟨h, fun w => ?_, fun w => ?_, fun hne => ?_⟩
  · simp only [Application.main, h]
  · simp only [Calo.main, h]
  · rw [h, dropWhile_of_not_mem _ hne, specMethodList]

/-- C6 as amended, on the command line `prog -b LD --batch MLP`. -/
theorem method_list_amended_witness :
    "" ∉ keptArgs ["-b", "LD", "--batch", "MLP"] ∧
    methodList ["prog", "-b", "LD", "--batch", "MLP"] = "LD,MLP" ∧
    specMethodList ["-b", "LD", "--batch", "MLP"] = "LD,MLP" :=
  ⟨by decide,
    ((method_list_amended ["prog", "-b", "LD", "--batch", "MLP"]).2.2.2 (by decide)).trans
      (by decide),
    by decide⟩

end TMVA
